import Mathlib

/-!
Verification of the glim repository-status dashboard (Rust sources under
src/): a shallow embedding in Lean 4 of the data model and operations of
repository.rs, cli.rs, main.rs and config.rs, with theorems checking the
natural-language specification against the embedded code.
-/

namespace Glim

/-! ## Distance (src/repository.rs, `enum Distance` and `Repository::distance`) -/

/-- The `Distance` enum of src/repository.rs. -/
inductive Distance
  | Same
  | Ahead
  | Behind
  | Both
deriving DecidableEq, Repr

/-- The match on `graph_ahead_behind`'s `Ok((a, b))` counts inside
`Repository::distance` (src/repository.rs lines 90-93), with the arms in
source order: `(0, 0)`, then `a > 0 && b == 0`, then `a == 0 && b > 0`,
then the wildcard. -/
def distanceOfCounts (a b : Nat) : Distance :=
  if a = 0 ∧ b = 0 then Distance.Same
  else if 0 < a ∧ b = 0 then Distance.Ahead
  else if a = 0 ∧ 0 < b then Distance.Behind
  else Distance.Both

/-- Input state consumed by `Repository::distance`: the head commit id if
`head()`/`target()` resolve, the upstream commit id if
`upstream()`/`target()` resolve, and the outcome of
`graph_ahead_behind` on the two ids. -/
structure DistInput where
  headOid : Option Nat
  upstreamOid : Option Nat
  graphAheadBehind : Except Unit (Nat × Nat)

/-- `Repository::distance` (src/repository.rs lines 80-96): each failed
resolution short-circuits to `None` via `ok()?`/`?`, a graph error maps to
`None`, and an `Ok` pair of counts maps through the match arms. -/
def distance (d : DistInput) : Option Distance :=
  match d.headOid with
  | none => none
  | some _ =>
    match d.upstreamOid with
    | none => none
    | some _ =>
      match d.graphAheadBehind with
      | Except.error _ => none
      | Except.ok (a, b) => some (distanceOfCounts a b)

/-! ## Status (src/repository.rs, `enum Status`, `Repository::compute_status`,
the facet predicates and the `Display` impl) -/

/-- libgit2 `git_status_t` bitflag values, as used through `git2::Status`. -/
def INDEX_NEW : Nat := 1

def INDEX_MODIFIED : Nat := 2

def INDEX_DELETED : Nat := 4

def INDEX_RENAMED : Nat := 8

def INDEX_TYPECHANGE : Nat := 16

def WT_NEW : Nat := 128

def WT_MODIFIED : Nat := 256

def WT_DELETED : Nat := 512

def WT_TYPECHANGE : Nat := 1024

def WT_RENAMED : Nat := 2048

/-- The `Status` enum of src/repository.rs: either a `HashSet` of the
per-entry `git2::Status` bitflag values, or not yet computed. Each element
of the set is the combined flag word `s.status()` of one status entry. -/
inductive Status
  | Known (flags : Finset Nat)
  | Unknown

/-- The body of `Repository::compute_status` (src/repository.rs lines
58-63): fold the entries' combined status words into a `HashSet` and wrap
it in `Status::Known`. The `entries` list holds `s.status()` for each
status entry returned by `statuses`. -/
def compute_status (entries : List Nat) : Status :=
  Status.Known (entries.foldl (fun set s => insert s set) ∅)

/-- `Status::has_staged_files` (src/repository.rs lines 111-121):
`HashSet::contains` tests for the exact flag word, so each disjunct is a
membership test for one single-bit value. -/
def Status.has_staged_files : Status → Bool
  | Status.Known status =>
      decide (INDEX_NEW ∈ status) || decide (INDEX_MODIFIED ∈ status) ||
        decide (INDEX_DELETED ∈ status) || decide (INDEX_RENAMED ∈ status) ||
        decide (INDEX_TYPECHANGE ∈ status)
  | Status.Unknown => false

/-- `Status::has_unstaged_files` (src/repository.rs lines 122-131). -/
def Status.has_unstaged_files : Status → Bool
  | Status.Known status =>
      decide (WT_MODIFIED ∈ status) || decide (WT_DELETED ∈ status) ||
        decide (WT_RENAMED ∈ status) || decide (WT_TYPECHANGE ∈ status)
  | Status.Unknown => false

/-- `Status::has_untracked_files` (src/repository.rs lines 132-138). -/
def Status.has_untracked_files : Status → Bool
  | Status.Known status => decide (WT_NEW ∈ status)
  | Status.Unknown => false

/-- `impl fmt::Display for Status` (src/repository.rs lines 141-155): push
`+` if staged, then `*` if unstaged, then `_` if untracked. -/
def Status.display (st : Status) : String :=
  String.mk
    ((if st.has_staged_files then ['+'] else []) ++
      (if st.has_unstaged_files then ['*'] else []) ++
      (if st.has_untracked_files then ['_'] else []))

/-- Spec-side rendering rule for comparison: the concatenation, in the
fixed order staged, unstaged, untracked, of the symbols of exactly the
facets present. -/
def statusSymbolSpec (st : Status) : String :=
  String.join
    (([(st.has_staged_files, "+"), (st.has_unstaged_files, "*"),
        (st.has_untracked_files, "_")]).filterMap
      fun p => if p.1 then some p.2 else none)

end Glim

/-! ## C1 -/

/-- C1: `Repository::distance` returns the unavailable outcome `none`
exactly when the head oid or the upstream oid fails to resolve or graph
traversal fails; on a resolvable pair of counts it returns `Same` at
`(0,0)`, `Ahead` when `a > 0 ∧ b = 0`, `Behind` when `a = 0 ∧ b > 0`, and
`Both` on any other pair; the mapping on counts is total and these four
cases cover every pair of naturals and are pairwise disjoint. -/
theorem c1_distance_mapping :
    (∀ d : Glim.DistInput,
      Glim.distance d = none ↔
        (d.headOid = none ∨ d.upstreamOid = none ∨
          ∃ e, d.graphAheadBehind = Except.error e)) ∧
    (∀ (h u a b : Nat),
      Glim.distance ⟨some h, some u, Except.ok (a, b)⟩ =
        some (Glim.distanceOfCounts a b)) ∧
    (∀ a b : Nat,
      (a = 0 ∧ b = 0 → Glim.distanceOfCounts a b = Glim.Distance.Same) ∧
      (0 < a ∧ b = 0 → Glim.distanceOfCounts a b = Glim.Distance.Ahead) ∧
      (a = 0 ∧ 0 < b → Glim.distanceOfCounts a b = Glim.Distance.Behind) ∧
      (0 < a ∧ 0 < b → Glim.distanceOfCounts a b = Glim.Distance.Both)) ∧
    (∀ a b : Nat,
      ((a = 0 ∧ b = 0) ∨ (0 < a ∧ b = 0) ∨ (a = 0 ∧ 0 < b) ∨
        (0 < a ∧ 0 < b)) ∧
      ¬ ((a = 0 ∧ b = 0) ∧ (0 < a ∧ b = 0)) ∧
      ¬ ((a = 0 ∧ b = 0) ∧ (a = 0 ∧ 0 < b)) ∧
      ¬ ((a = 0 ∧ b = 0) ∧ (0 < a ∧ 0 < b)) ∧
      ¬ ((0 < a ∧ b = 0) ∧ (a = 0 ∧ 0 < b)) ∧
      ¬ ((0 < a ∧ b = 0) ∧ (0 < a ∧ 0 < b)) ∧
      ¬ ((a = 0 ∧ 0 < b) ∧ (0 < a ∧ 0 < b))) := by
  refine ⟨?_, ?_, ?_, ?_⟩
  · intro d
    rcases d with ⟨h, u, g⟩
    rcases h with _ | h <;> rcases u with _ | u <;>
      rcases g with e | ⟨a, b⟩ <;>
      simp [Glim.distance]
  · intro h u a b
    rfl
  · intro a b
    refine ⟨fun hc => ?_, fun hc => ?_, fun hc => ?_, fun hc => ?_⟩ <;>
      unfold Glim.distanceOfCounts
    · rw [if_pos hc]
    · rw [if_neg (by omega), if_pos hc]
    · rw [if_neg (by omega), if_neg (by omega), if_pos hc]
    · rw [if_neg (by omega), if_neg (by omega), if_neg (by omega)]
  · intro a b
    omega

/-- Witness for C1 at concrete inputs: resolvable counts `(2, 0)` give
`Ahead`, and an unresolvable upstream gives `none`. -/
theorem c1_distance_mapping_witness :
    Glim.distance ⟨some 5, some 7, Except.ok (2, 0)⟩ =
      some Glim.Distance.Ahead ∧
    Glim.distance ⟨some 5, none, Except.ok (2, 0)⟩ = none := by
  constructor
  · have h := (c1_distance_mapping.2.1) 5 7 2 0
    have h2 := ((c1_distance_mapping.2.2.1) 2 0).2.1 (by omega)
    rw [h, h2]
  · exact (c1_distance_mapping.1 ⟨some 5, none, Except.ok (2, 0)⟩).mpr
      (Or.inr (Or.inl rfl))

/-! ## C2 -/

/-- C2: the code at the failing input. A single status entry whose flag
word combines an index-side and a working-tree-side change
(`INDEX_MODIFIED | WT_MODIFIED` = 258) contributes to neither facet,
because `HashSet::contains` tests the exact flag word rather than the
individual bits; the same two changes arriving as two separate entries
are detected. So a path carrying both kinds of change does not contribute
to both facets as the specification requires. -/
theorem c2_combined_entry_yields_no_facets :
    (Glim.compute_status [Glim.INDEX_MODIFIED + Glim.WT_MODIFIED]).has_staged_files = false ∧
    (Glim.compute_status [Glim.INDEX_MODIFIED + Glim.WT_MODIFIED]).has_unstaged_files = false ∧
    (Glim.compute_status [Glim.INDEX_MODIFIED + Glim.WT_MODIFIED]).has_untracked_files = false ∧
    (Glim.compute_status [Glim.INDEX_MODIFIED, Glim.WT_MODIFIED]).has_staged_files = true ∧
    (Glim.compute_status [Glim.INDEX_MODIFIED, Glim.WT_MODIFIED]).has_unstaged_files = true := by
  decide

/-! ## C6 -/

/-- C6: the rendered status symbol is the concatenation, in the fixed
order `+` (staged) then `*` (unstaged) then `_` (untracked), of the
symbols of exactly the facets present, omitting absent ones; in
particular an only-unstaged status renders as a lone `*`. -/
theorem c6_status_symbol_order :
    (∀ st : Glim.Status, st.display = Glim.statusSymbolSpec st) ∧
    (Glim.compute_status [Glim.WT_MODIFIED]).display = "*" ∧
    (Glim.compute_status [Glim.WT_MODIFIED, Glim.WT_NEW]).display = "*_" ∧
    (Glim.compute_status
      [Glim.INDEX_NEW, Glim.WT_MODIFIED, Glim.WT_NEW]).display = "+*_" := by
  refine ⟨fun st => ?_, by decide, by decide, by decide⟩
  cases h1 : st.has_staged_files <;> cases h2 : st.has_unstaged_files <;>
    cases h3 : st.has_untracked_files <;>
    simp [Glim.Status.display, Glim.statusSymbolSpec, h1, h2, h3,
      String.join]

/-! ## C9 -/

/-- C9: on a handle whose status was never computed (`Status::Unknown`),
all three facet predicates return `false` and the rendered status symbol
is the empty string, the same rendering as a clean repository's empty
flag set. -/
theorem c9_unknown_status_renders_clean :
    Glim.Status.Unknown.has_staged_files = false ∧
    Glim.Status.Unknown.has_unstaged_files = false ∧
    Glim.Status.Unknown.has_untracked_files = false ∧
    Glim.Status.Unknown.display = "" ∧
    (Glim.compute_status []).display = "" := by
  decide

namespace Glim

/-! ## Commit-summary cell (src/cli.rs lines 178-184, src/main.rs lines
223-228) -/

/-- The summary cell of a table row:
`commit_summary().unwrap_or_default().chars().take(50).collect()`.
The summary is a list of characters (Rust `chars()` iterates characters,
not bytes); a missing summary defaults to the empty string. -/
def truncateSummary (summary : Option (List Char)) : List Char :=
  (summary.getD []).take 50

end Glim

/-! ## C4 -/

/-- C4 counterexample: for the 51-character summary `replicate 51 'a'`,
the rendered cell is NOT the first 50 characters followed by a non-empty
truncation marker — the code emits exactly the first 50 characters and
nothing more. -/
theorem c4_truncation_marker_counterexample :
    ¬ ∃ marker : List Char, marker ≠ [] ∧
      Glim.truncateSummary (some (List.replicate 51 'a')) =
        (List.replicate 51 'a').take 50 ++ marker := by
  rintro ⟨m, hm, he⟩
  apply hm
  have hlen := congrArg List.length he
  simp [Glim.truncateSummary] at hlen
  exact hlen

/-- C4 amended: the rendered summary cell is exactly the first 50
characters of the commit summary, with no marker appended: a summary of
at most 50 characters passes through unchanged, and a longer one is cut
to exactly 50 characters. -/
theorem c4_summary_truncation (s : List Char) :
    Glim.truncateSummary (some s) = s.take 50 ∧
    (s.length ≤ 50 → Glim.truncateSummary (some s) = s) ∧
    (50 < s.length → (Glim.truncateSummary (some s)).length = 50) := by
  refine ⟨rfl, fun h => ?_, fun h => ?_⟩
  · simp [Glim.truncateSummary, List.take_of_length_le h]
  · simp [Glim.truncateSummary]
    omega

/-- Witness for C4 at concrete inputs: a 3-character summary passes
through unchanged, a 60-character one is cut to 50 characters. -/
theorem c4_summary_truncation_witness :
    Glim.truncateSummary (some (List.replicate 3 'b')) =
      List.replicate 3 'b' ∧
    (Glim.truncateSummary (some (List.replicate 60 'x'))).length = 50 := by
  constructor
  · exact (c4_summary_truncation (List.replicate 3 'b')).2.1 (by simp)
  · exact (c4_summary_truncation (List.replicate 60 'x')).2.2 (by simp)

namespace Glim

/-! ## Registry map (src/config.rs, `repositories: HashMap<String, PathBuf>`
and `Config::rename_repository`) -/

/-- The registry's name-to-path `HashMap`, modelled extensionally as a
function from names to optional paths. -/
def RepoMap := String → Option String

/-- `HashMap::contains_key`. -/
def contains_key (m : RepoMap) (k : String) : Bool :=
  (m k).isSome

/-- `Config::rename_repository` (src/config.rs lines 55-68): if `name` is
absent or `new_name` is already present, return an error with `self`
untouched; otherwise remove `name` and insert its path under `new_name`.
The returned flag is `true` on `Ok` and `false` on `Err`. -/
def rename_repository (m : RepoMap) (name new_name : String) :
    RepoMap × Bool :=
  if ¬ contains_key m name then (m, false)
  else if contains_key m new_name then (m, false)
  else
    (fun k => if k = new_name then m name else if k = name then none else m k,
      true)

/-- A concrete registry with the single entry `"a" ↦ "/p/a"`. -/
def exampleRepoMap : RepoMap :=
  fun k => if k = "a" then some "/p/a" else none

end Glim

/-! ## C10 -/

/-- C10: `rename_repository` errs exactly when the old name is absent or
the new name is already present; on error the registry map is unchanged;
on success the old name's entry is gone, its path reappears under the new
name, and every other name is untouched. -/
theorem c10_rename_repository (m : Glim.RepoMap) (name new_name : String) :
    ((Glim.rename_repository m name new_name).2 = false ↔
      (m name = none ∨ (m new_name).isSome = true)) ∧
    ((Glim.rename_repository m name new_name).2 = false →
      (Glim.rename_repository m name new_name).1 = m) ∧
    ((Glim.rename_repository m name new_name).2 = true →
      (Glim.rename_repository m name new_name).1 new_name = m name ∧
      (Glim.rename_repository m name new_name).1 name = none ∧
      ∀ k, k ≠ name → k ≠ new_name →
        (Glim.rename_repository m name new_name).1 k = m k) := by
  by_cases h1 : Glim.contains_key m name
  · have h1s : (m name).isSome = true := h1
    by_cases h2 : Glim.contains_key m new_name
    · have h2s : (m new_name).isSome = true := h2
      have hr : Glim.rename_repository m name new_name = (m, false) := by
        simp [Glim.rename_repository, h1, h2]
      rw [hr]
      exact ⟨by simp [h2s], fun _ => rfl, fun hok => by simp at hok⟩
    · have h2s : ¬ (m new_name).isSome = true := h2
      have hne : name ≠ new_name := by
        intro he
        rw [he] at h1s
        exact h2s h1s
      have hr : Glim.rename_repository m name new_name =
          (fun k => if k = new_name then m name
            else if k = name then none else m k, true) := by
        simp [Glim.rename_repository, h1, h2]
      rw [hr]
      refine ⟨?_, fun hbad => by simp at hbad,
        fun _ => ⟨by simp, by simp [hne], fun k hk1 hk2 => by simp [hk1, hk2]⟩⟩
      constructor
      · intro hf
        exact absurd hf (by simp)
      · rintro (hn | hs)
        · rw [hn] at h1s
          simp at h1s
        · exact absurd hs h2s
  · have h1s : ¬ (m name).isSome = true := h1
    have hn : m name = none := by
      cases hmn : m name
      · rfl
      · rw [hmn] at h1s
        simp at h1s
    have hr : Glim.rename_repository m name new_name = (m, false) := by
      simp [Glim.rename_repository, h1]
    rw [hr]
    exact ⟨by simp [hn], fun _ => rfl, fun hok => by simp at hok⟩

/-- Witness for C10 at a concrete registry: renaming `"a"` to `"b"`
succeeds and moves the path, renaming the absent `"b"` errs. -/
theorem c10_rename_repository_witness :
    (Glim.rename_repository Glim.exampleRepoMap "a" "b").1 "b" = some "/p/a" ∧
    (Glim.rename_repository Glim.exampleRepoMap "a" "b").1 "a" = none ∧
    (Glim.rename_repository Glim.exampleRepoMap "b" "c").2 = false := by
  have h := c10_rename_repository Glim.exampleRepoMap "a" "b"
  have hok : (Glim.rename_repository Glim.exampleRepoMap "a" "b").2 = true := by
    decide
  obtain ⟨hb, ha, _⟩ := h.2.2 hok
  refine ⟨by rw [hb]; decide, ha, ?_⟩
  exact (c10_rename_repository Glim.exampleRepoMap "b" "c").1.mpr
    (Or.inl (by decide))

namespace Glim

/-! ## Opening and dispatch (src/cli.rs, `CLI::run_process` lines 88-100) -/

/-- One `(name, path)` pair of the registry, together with whether
`Repository::open` succeeds on its path. -/
structure SourceEntry where
  name : String
  openable : Bool

/-- The open loop of `CLI::run_process` (src/cli.rs lines 88-95): a pair
that opens is pushed onto `repositories`; a pair that does not is skipped
and one diagnostic line naming it goes to stderr. Returns the opened
handles in order and the reported names in order. -/
def openRepositories : List SourceEntry → List SourceEntry × List String
  | [] => ([], [])
  | e :: rest =>
    let r := openRepositories rest
    if e.openable then (e :: r.1, r.2) else (r.1, e.name :: r.2)

/-- `num_jobs` of `CLI::run_process` (src/cli.rs line 100): the length of
the successfully opened `repositories` vector, which is also the count the
aggregator's `take(num_jobs)` waits for. -/
def num_jobs (l : List SourceEntry) : Nat :=
  (openRepositories l).1.length

end Glim

/-! ## C7 -/

/-- C7: the dispatched handles are exactly the openable pairs in input
order, every unopenable pair is excluded from dispatch and reported by
name to the error-surfacing collaborator (stderr), and the aggregator's
expected result count `num_jobs` equals the number of successfully opened
handles, so no unopened pair is counted as a pending job. -/
theorem c7_open_failures_excluded (l : List Glim.SourceEntry) :
    (Glim.openRepositories l).1 = l.filter (fun e => e.openable) ∧
    (Glim.openRepositories l).2 =
      (l.filter (fun e => ! e.openable)).map (fun e => e.name) ∧
    Glim.num_jobs l = (l.filter (fun e => e.openable)).length ∧
    ((Glim.openRepositories l).1.all (fun e => e.openable)) = true := by
  have key : (Glim.openRepositories l).1 = l.filter (fun e => e.openable) ∧
      (Glim.openRepositories l).2 =
        (l.filter (fun e => ! e.openable)).map (fun e => e.name) := by
    induction l with
    | nil => exact ⟨rfl, rfl⟩
    | cons e rest ih =>
      cases he : e.openable <;>
        simp [Glim.openRepositories, he, ih.1, ih.2, List.filter_cons]
  refine ⟨key.1, key.2, ?_, ?_⟩
  · rw [Glim.num_jobs, key.1]
  · rw [key.1]
    exact List.all_eq_true.mpr fun e hmem => (List.mem_filter.mp hmem).2

/-- Witness for C7 on a concrete registry: of three pairs with the middle
one unopenable, two are dispatched, one is reported, and `num_jobs` is 2. -/
theorem c7_open_failures_excluded_witness :
    (Glim.openRepositories
      [⟨"a", true⟩, ⟨"bad", false⟩, ⟨"c", true⟩]).1 =
        [⟨"a", true⟩, ⟨"c", true⟩] ∧
    (Glim.openRepositories
      [⟨"a", true⟩, ⟨"bad", false⟩, ⟨"c", true⟩]).2 = ["bad"] ∧
    Glim.num_jobs [⟨"a", true⟩, ⟨"bad", false⟩, ⟨"c", true⟩] = 2 := by
  have h := c7_open_failures_excluded
    [⟨"a", true⟩, ⟨"bad", false⟩, ⟨"c", true⟩]
  exact ⟨by rw [h.1]; rfl, by rw [h.2.1]; rfl, by rw [h.2.2.1]; rfl⟩

namespace Glim

/-! ## Worker tasks (src/main.rs lines 156-183, src/cli.rs lines 113-133) -/

/-- The locally observable repository state consumed by the read-only
queries: the status entries `statuses` would report, the branch and
remote names, the distance inputs, and the head commit summary. -/
structure RepoData where
  statusEntries : List Nat
  branchName : Option String
  remoteName : Option String
  distInput : DistInput
  summary : Option (List Char)

/-- One opened repository as a dispatched job sees it: its last-known
local data, the data after a successful fetch of the upstream ref, and
whether `fetch` and the `statuses` call succeed. -/
structure RepoSpec where
  localData : RepoData
  fetchedData : RepoData
  fetchOk : Bool
  statusOk : Bool

/-- One dispatched job: the registry name plus the opened repository
(`none` when `Repository::open` fails inside the task, src/main.rs lines
164-175). -/
structure JobInput where
  name : String
  opened : Option RepoSpec

/-- The fields of one table row, as read by the render loop. -/
structure Row where
  status : Status
  dist : Option Distance
  branch : Option String
  remote : Option String
  summary : List Char

/-- The queries evaluated on one processed repository: `compute_status`
on success leaves `Known` flags (`Unknown` when `statuses` errs, since
`let _ = repository.compute_status()` discards the error and the field
keeps its `open` value), then `distance`, `branch_name`, `remote_name`
and the truncated `commit_summary`. -/
def mkRow (statusOk : Bool) (d : RepoData) : Row :=
  { status := if statusOk then compute_status d.statusEntries else Status.Unknown
    dist := distance d.distInput
    branch := d.branchName
    remote := d.remoteName
    summary := truncateSummary d.summary }

/-- The worker closure (src/main.rs lines 163-182): open, then
best-effort fetch — `let _ = repository.fetch();` swallows the error —
then best-effort `compute_status`, then send exactly one `(name, result)`
message. A failed or suppressed fetch leaves the repository at its
last-known local data; a successful one advances it to the fetched
data. -/
def runWorker (doFetch : Bool) (j : JobInput) : String × Option Row :=
  match j.opened with
  | none => (j.name, none)
  | some spec =>
    let d := if doFetch && spec.fetchOk then spec.fetchedData else spec.localData
    (j.name, some (mkRow spec.statusOk d))

/-- All dispatched jobs: every job runs the same closure on its own
exclusively owned repository and sends exactly one message. -/
def runAllJobs (doFetch : Bool) (js : List JobInput) :
    List (String × Option Row) :=
  js.map (runWorker doFetch)

end Glim

/-! ## C5 -/

/-- C5: a fetch failure is swallowed and never aborts the job — every
dispatched job emits exactly one result; a job whose fetch fails still
computes its status, distance and read-only queries from its last-known
local data; and a result at position `k` depends only on the job at
position `k`, so altering another job (say, making its fetch fail) never
prevents this result from appearing nor alters its fields. -/
theorem c5_fetch_failure_isolated :
    (∀ (doFetch : Bool) (js : List Glim.JobInput),
      (Glim.runAllJobs doFetch js).length = js.length) ∧
    (∀ (doFetch : Bool) (j : Glim.JobInput) (spec : Glim.RepoSpec),
      j.opened = some spec → spec.fetchOk = false →
      Glim.runWorker doFetch j =
        (j.name, some (Glim.mkRow spec.statusOk spec.localData))) ∧
    (∀ (doFetch : Bool) (js js' : List Glim.JobInput) (k : Nat),
      js[k]? = js'[k]? →
      (Glim.runAllJobs doFetch js)[k]? = (Glim.runAllJobs doFetch js')[k]?) := by
  refine ⟨fun doFetch js => ?_, fun doFetch j spec hopen hfetch => ?_,
    fun doFetch js js' k h => ?_⟩
  · simp [Glim.runAllJobs]
  · simp [Glim.runWorker, hopen, hfetch]
  · rw [Glim.runAllJobs, Glim.runAllJobs, List.getElem?_map, List.getElem?_map, h]

/-- Witness for C5 at a concrete pair of jobs: the job whose fetch fails
still yields a row computed from its local data, and both jobs of a
two-job run emit a result. -/
theorem c5_fetch_failure_isolated_witness :
    Glim.runWorker true
      ⟨"r", some ⟨⟨[Glim.WT_MODIFIED], some "main", none,
        ⟨some 1, none, Except.error ()⟩, none⟩,
        ⟨[], some "main", none, ⟨some 1, some 2, Except.ok (0, 0)⟩, none⟩,
        false, true⟩⟩ =
      ("r", some (Glim.mkRow true
        ⟨[Glim.WT_MODIFIED], some "main", none,
          ⟨some 1, none, Except.error ()⟩, none⟩)) ∧
    (Glim.runAllJobs true [⟨"r", none⟩, ⟨"s", none⟩]).length = 2 := by
  constructor
  · exact c5_fetch_failure_isolated.2.1 true
      ⟨"r", some ⟨⟨[Glim.WT_MODIFIED], some "main", none,
        ⟨some 1, none, Except.error ()⟩, none⟩,
        ⟨[], some "main", none, ⟨some 1, some 2, Except.ok (0, 0)⟩, none⟩,
        false, true⟩⟩
      ⟨⟨[Glim.WT_MODIFIED], some "main", none,
        ⟨some 1, none, Except.error ()⟩, none⟩,
        ⟨[], some "main", none, ⟨some 1, some 2, Except.ok (0, 0)⟩, none⟩,
        false, true⟩
      rfl rfl
  · rw [c5_fetch_failure_isolated.1 true [⟨"r", none⟩, ⟨"s", none⟩]]
    rfl

namespace Glim

/-! ## The `status` field over a handle's lifetime (src/repository.rs) -/

/-- The operations applied to a `Repository` after `open`:
`compute_status` — with the entry flags its `statuses` call would yield
and whether that call succeeds — or one of the read-only `&self`
queries. -/
inductive Op
  | computeStatusOp (entries : List Nat) (ok : Bool)
  | statusQuery
  | branchNameQuery
  | remoteNameQuery
  | distanceQuery
  | commitSummaryQuery

/-- The read-only queries: every method of src/repository.rs except
`compute_status` takes `&self`. -/
def isQuery : Op → Bool
  | Op.computeStatusOp _ _ => false
  | _ => true

/-- Effect of one operation on the `status` field: `compute_status`
(src/repository.rs lines 51-65) overwrites it with `Known` when
`statuses` succeeds and leaves it alone when it errs (the `?` returns
before the assignment); the `&self` queries cannot write it. -/
def stepStatus (st : Status) : Op → Status
  | Op.computeStatusOp entries ok => if ok then compute_status entries else st
  | _ => st

/-- The `status` field after each prefix of a run of operations, starting
from the given state; `open` (src/repository.rs lines 14-20) starts every
handle at `Status::Unknown`. -/
def statusTrace (st : Status) : List Op → List Status
  | [] => [st]
  | op :: ops => st :: statusTrace (stepStatus st op) ops

/-- Whether the cached status is in the `Known` state. -/
def Status.isKnown : Status → Bool
  | Status.Known _ => true
  | Status.Unknown => false

/-- The number of `false → true` steps along a list of states. -/
def riseCount : List Bool → Nat
  | a :: b :: t => (if a = false ∧ b = true then 1 else 0) + riseCount (b :: t)
  | _ => 0

end Glim

/-- Every trace starts with the state it is given. -/
lemma statusTrace_head (st : Glim.Status) (ops : List Glim.Op) :
    ∃ t, Glim.statusTrace st ops = st :: t := by
  cases ops <;> exact ⟨_, rfl⟩

/-- A step never moves the status back from `Known` to `Unknown`. -/
lemma stepStatus_isKnown_mono (st : Glim.Status) (op : Glim.Op)
    (h : st.isKnown = true) : (Glim.stepStatus st op).isKnown = true := by
  cases op with
  | computeStatusOp entries ok =>
    cases ok
    · exact h
    · rfl
  | statusQuery => exact h
  | branchNameQuery => exact h
  | remoteNameQuery => exact h
  | distanceQuery => exact h
  | commitSummaryQuery => exact h

/-- Once the status is `Known`, no further `Unknown → Known` step occurs. -/
lemma riseCount_trace_of_known (ops : List Glim.Op) :
    ∀ st : Glim.Status, st.isKnown = true →
      Glim.riseCount ((Glim.statusTrace st ops).map Glim.Status.isKnown) = 0 := by
  induction ops with
  | nil =>
    intro st _
    rfl
  | cons op ops ih =>
    intro st h
    obtain ⟨t, ht⟩ := statusTrace_head (Glim.stepStatus st op) ops
    have hrec := ih (Glim.stepStatus st op) (stepStatus_isKnown_mono st op h)
    rw [ht] at hrec
    simp only [List.map_cons] at hrec
    simp only [Glim.statusTrace, ht, List.map_cons, Glim.riseCount, h]
    rw [hrec]
    simp

/-- Along any trace, at most one `Unknown → Known` step occurs. -/
lemma riseCount_trace_le_one (ops : List Glim.Op) :
    ∀ st : Glim.Status,
      Glim.riseCount ((Glim.statusTrace st ops).map Glim.Status.isKnown) ≤ 1 := by
  induction ops with
  | nil =>
    intro st
    simp [Glim.statusTrace, Glim.riseCount]
  | cons op ops ih =>
    intro st
    obtain ⟨t, ht⟩ := statusTrace_head (Glim.stepStatus st op) ops
    simp only [Glim.statusTrace, ht, List.map_cons, Glim.riseCount]
    cases hk : (Glim.stepStatus st op).isKnown
    · have hrec := ih (Glim.stepStatus st op)
      rw [ht] at hrec
      simp only [List.map_cons, hk] at hrec
      simp [hk]
      omega
    · have hrec := riseCount_trace_of_known ops (Glim.stepStatus st op)
        (by rw [hk])
      rw [ht] at hrec
      simp only [List.map_cons, hk] at hrec
      rw [hrec]
      cases st.isKnown <;> simp

/-! ## C8 -/

/-- C8: `open` initializes the cached status to `Unknown` (every trace
from `open` starts there); the read-only queries `status`, `branch_name`,
`remote_name`, `distance` and `commit_summary` never change it nor
trigger recomputation; a successful `compute_status` is the only
operation that sets it; and along every run of operations from `open`
the field goes `Unknown → Known` at most once. -/
theorem c8_cached_status_set_once :
    (∀ ops : List Glim.Op,
      (Glim.statusTrace Glim.Status.Unknown ops).head? =
        some Glim.Status.Unknown) ∧
    (∀ (st : Glim.Status) (op : Glim.Op), Glim.isQuery op = true →
      Glim.stepStatus st op = st) ∧
    (∀ (st : Glim.Status) (entries : List Nat),
      Glim.stepStatus st (Glim.Op.computeStatusOp entries true) =
        Glim.compute_status entries ∧
      Glim.stepStatus st (Glim.Op.computeStatusOp entries false) = st) ∧
    (∀ ops : List Glim.Op,
      Glim.riseCount
        ((Glim.statusTrace Glim.Status.Unknown ops).map Glim.Status.isKnown) ≤
        1) := by
  refine ⟨fun ops => ?_, fun st op hq => ?_, fun st entries => ⟨rfl, rfl⟩,
    fun ops => riseCount_trace_le_one ops Glim.Status.Unknown⟩
  · obtain ⟨t, ht⟩ := statusTrace_head Glim.Status.Unknown ops
    rw [ht]
    rfl
  · cases op with
    | computeStatusOp entries ok => simp [Glim.isQuery] at hq
    | statusQuery => rfl
    | branchNameQuery => rfl
    | remoteNameQuery => rfl
    | distanceQuery => rfl
    | commitSummaryQuery => rfl

/-- Witness for C8 on a concrete run: compute twice with a query in
between — the trace makes exactly one `Unknown → Known` step. -/
theorem c8_cached_status_set_once_witness :
    Glim.riseCount
      ((Glim.statusTrace Glim.Status.Unknown
        [Glim.Op.distanceQuery, Glim.Op.computeStatusOp [Glim.WT_NEW] true,
          Glim.Op.statusQuery,
          Glim.Op.computeStatusOp [] true]).map Glim.Status.isKnown) ≤ 1 :=
  c8_cached_status_set_once.2.2.2
    [Glim.Op.distanceQuery, Glim.Op.computeStatusOp [Glim.WT_NEW] true,
      Glim.Op.statusQuery, Glim.Op.computeStatusOp [] true]

namespace Glim

/-! ## Result aggregation (src/cli.rs lines 136-142, src/main.rs lines
186-192) -/

/-- Insertion into the name-keyed `BTreeMap`, modelled as a strictly
key-sorted association list: `BTreeMap::insert` places the entry at its
key's position and overwrites the value held at an equal key. -/
def insertSorted {V : Type} (k : String) (v : V) :
    List (String × V) → List (String × V)
  | [] => [(k, v)]
  | (k', v') :: t =>
    if k < k' then (k, v) :: (k', v') :: t
    else if k = k' then (k, v) :: t
    else (k', v') :: insertSorted k v t

/-- The collect step: `rx.iter().take(num_jobs).fold(BTreeMap::new(),
|map, r| { map.insert(name, r); map })` — the results, in whatever order
they arrive, are inserted one by one into the empty map, and the map is
then iterated in ascending key order. -/
def sortedMapFold {V : Type} (arrival : List (String × V)) :
    List (String × V) :=
  arrival.foldl (fun m p => insertSorted p.1 p.2 m) []

end Glim

/-- A key of the inserted list is the new key or one of the old keys. -/
lemma mem_keys_insertSorted {V : Type} (k : String) (v : V) :
    ∀ (m : List (String × V)) (x : String),
      x ∈ (Glim.insertSorted k v m).map Prod.fst →
      x = k ∨ x ∈ m.map Prod.fst
  | [], x, hx => by
    simp [Glim.insertSorted] at hx
    exact Or.inl hx
  | (k', v') :: t, x, hx => by
    by_cases h1 : k < k'
    · simp only [Glim.insertSorted, if_pos h1, List.map_cons,
        List.mem_cons] at hx ⊢
      tauto
    · by_cases h2 : k = k'
      · simp only [Glim.insertSorted, if_neg h1, if_pos h2, List.map_cons,
          List.mem_cons] at hx ⊢
        tauto
      · simp only [Glim.insertSorted, if_neg h1, if_neg h2, List.map_cons,
          List.mem_cons] at hx ⊢
        rcases hx with hx | hx
        · tauto
        · rcases mem_keys_insertSorted k v t x hx with hx | hx <;> tauto

/-- Inserting a fresh key is, up to order, just consing the entry. -/
lemma insertSorted_perm {V : Type} (k : String) (v : V) :
    ∀ m : List (String × V), k ∉ m.map Prod.fst →
      (Glim.insertSorted k v m).Perm ((k, v) :: m)
  | [], _ => by
    simp [Glim.insertSorted]
  | (k', v') :: t, h => by
    have hk : k ≠ k' ∧ k ∉ t.map Prod.fst := by
      simpa using h
    by_cases h1 : k < k'
    · simp only [Glim.insertSorted, if_pos h1]
      exact List.Perm.refl _
    · simp only [Glim.insertSorted, if_neg h1, if_neg hk.1]
      exact ((insertSorted_perm k v t hk.2).cons (k', v')).trans
        (List.Perm.swap (k, v) (k', v') t)

/-- Insertion keeps the association list strictly sorted by key. -/
lemma insertSorted_pairwise {V : Type} (k : String) (v : V) :
    ∀ m : List (String × V),
      m.Pairwise (fun a b => a.1 < b.1) →
      (Glim.insertSorted k v m).Pairwise (fun a b => a.1 < b.1)
  | [], _ => by
    simp [Glim.insertSorted]
  | (k', v') :: t, h => by
    rw [List.pairwise_cons] at h
    by_cases h1 : k < k'
    · simp only [Glim.insertSorted, if_pos h1]
      rw [List.pairwise_cons]
      refine ⟨?_, List.pairwise_cons.mpr h⟩
      intro b hb
      rcases List.mem_cons.mp hb with hb | hb
      · rw [hb]
        exact h1
      · exact lt_trans h1 (h.1 b hb)
    · by_cases h2 : k = k'
      · simp only [Glim.insertSorted, if_neg h1, if_pos h2]
        rw [List.pairwise_cons]
        refine ⟨?_, h.2⟩
        intro b hb
        rw [h2]
        exact h.1 b hb
      · simp only [Glim.insertSorted, if_neg h1, if_neg h2]
        rw [List.pairwise_cons]
        have hk' : k' < k := lt_of_le_of_ne (le_of_not_lt h1)
          fun he => h2 he.symm
        refine ⟨?_, insertSorted_pairwise k v t h.2⟩
        intro b hb
        have hbk : b.1 = k ∨ b.1 ∈ t.map Prod.fst :=
          mem_keys_insertSorted k v t b.1 (List.mem_map_of_mem Prod.fst hb)
        rcases hbk with hbk | hbk
        · rw [hbk]
          exact hk'
        · obtain ⟨a, ha, hae⟩ := List.mem_map.mp hbk
          rw [← hae]
          exact h.1 a ha

/-- The fold of fresh-keyed arrivals onto an accumulator is a permutation
of the accumulator followed by the arrivals. -/
lemma foldl_insertSorted_perm {V : Type} :
    ∀ (l m : List (String × V)),
      (l.map Prod.fst).Nodup →
      (∀ x ∈ l.map Prod.fst, x ∉ m.map Prod.fst) →
      (l.foldl (fun acc p => Glim.insertSorted p.1 p.2 acc) m).Perm (m ++ l)
  | [], m, _, _ => by simp
  | a :: l, m, hnd, hdisj => by
    rw [List.foldl_cons]
    have hnd' : a.1 ∉ l.map Prod.fst ∧ (l.map Prod.fst).Nodup := by
      simpa using hnd
    have hmem : a.1 ∉ m.map Prod.fst := hdisj a.1 (by simp)
    have hdisj' : ∀ x ∈ l.map Prod.fst,
        x ∉ (Glim.insertSorted a.1 a.2 m).map Prod.fst := by
      intro x hx hmem'
      rcases mem_keys_insertSorted a.1 a.2 m x hmem' with he | hm
      · rw [he] at hx
        exact hnd'.1 hx
      · exact hdisj x (by simp [hx]) hm
    have hrec := foldl_insertSorted_perm l (Glim.insertSorted a.1 a.2 m)
      hnd'.2 hdisj'
    refine hrec.trans ?_
    have hins : (Glim.insertSorted a.1 a.2 m).Perm ((a.1, a.2) :: m) :=
      insertSorted_perm a.1 a.2 m hmem
    refine (hins.append_right l).trans ?_
    exact List.perm_middle.symm

/-- The fold keeps the accumulator strictly sorted by key. -/
lemma foldl_insertSorted_pairwise {V : Type} :
    ∀ (l m : List (String × V)),
      m.Pairwise (fun a b => a.1 < b.1) →
      (l.foldl (fun acc p => Glim.insertSorted p.1 p.2 acc) m).Pairwise
        (fun a b => a.1 < b.1)
  | [], _, h => h
  | a :: l, m, h =>
    foldl_insertSorted_pairwise l _ (insertSorted_pairwise a.1 a.2 m h)

/-! ## C3 -/

/-- C3: for any sequence of per-repository results with distinct names
and any arrival order of them (any permutation, as induced by any worker
count), the collect fold emits exactly as many entries as there are
results, the same final sequence, and that sequence is the input's
entries in strictly ascending name order. -/
theorem c3_aggregator_order_independent {V : Type}
    (l1 l2 : List (String × V))
    (hperm : l1.Perm l2) (hnd : (l1.map Prod.fst).Nodup) :
    Glim.sortedMapFold l1 = Glim.sortedMapFold l2 ∧
    (Glim.sortedMapFold l1).length = l1.length ∧
    (Glim.sortedMapFold l1).Perm l1 ∧
    (Glim.sortedMapFold l1).Pairwise (fun a b => a.1 < b.1) := by
  have hnd2 : (l2.map Prod.fst).Nodup := ((hperm.map Prod.fst).nodup_iff).mp hnd
  have h1 : (Glim.sortedMapFold l1).Perm l1 := by
    have h := foldl_insertSorted_perm l1 [] hnd (by simp)
    simpa [Glim.sortedMapFold] using h
  have h2 : (Glim.sortedMapFold l2).Perm l2 := by
    have h := foldl_insertSorted_perm l2 [] hnd2 (by simp)
    simpa [Glim.sortedMapFold] using h
  have hp1 : (Glim.sortedMapFold l1).Pairwise (fun a b => a.1 < b.1) :=
    foldl_insertSorted_pairwise l1 [] List.Pairwise.nil
  have hp2 : (Glim.sortedMapFold l2).Pairwise (fun a b => a.1 < b.1) :=
    foldl_insertSorted_pairwise l2 [] List.Pairwise.nil
  have hcomb : (Glim.sortedMapFold l1).Perm (Glim.sortedMapFold l2) :=
    h1.trans (hperm.trans h2.symm)
  haveI : IsAntisymm (String × V) (fun a b => a.1 < b.1) :=
    ⟨fun a b hab hba => absurd (lt_trans hab hba) (lt_irrefl a.1)⟩
  exact ⟨List.eq_of_perm_of_sorted hcomb hp1 hp2, h1.length_eq, h1, hp1⟩

/-- Witness for C3 at two concrete arrival orders of the same two
results: both folds yield the same name-sorted sequence of length 2. -/
theorem c3_aggregator_order_independent_witness :
    Glim.sortedMapFold [("b", 1), ("a", 2)] =
      Glim.sortedMapFold [("a", 2), ("b", 1)] ∧
    (Glim.sortedMapFold [("b", 1), ("a", 2)]).length = 2 := by
  have h := c3_aggregator_order_independent [("b", 1), ("a", 2)]
    [("a", 2), ("b", 1)] (List.Perm.swap ("a", 2) ("b", 1) []) (by decide)
  exact ⟨h.1, by rw [h.2.1]; rfl⟩
